import Mathlib

/-!
Verification of the Research_Agent repository against its natural-language
specification.

The browser-extension transcript pipeline (`youtube-transcript.ts`) is
embedded directly from the TypeScript source.  The core orchestration layer
(reducers, checkpoint store, HITL controller, search client, circuit
breaker) is present in the repository only as documentation
(`docs/STATE_PERSISTENCE.md` and design documents); those components are
modelled from the specification, as marked in each doc comment.
-/

namespace ResearchAgent

/-! ### Shared association-list helpers (model of a JS object / dict keyed by string) -/

/-- Lookup of the value bound to key `k`, first binding wins (models
`record[k]` on a JS object, where keys are unique). -/
def lookupKey {α : Type} : List (String × α) → String → Option α
  | [], _ => none
  | p :: rest, k => if p.1 = k then some p.2 else lookupKey rest k

/-- Update of the binding for key `k` in place, appending a fresh binding if
the key is absent (models `record[k] = v` on a JS object). -/
def setKey {α : Type} : List (String × α) → String → α → List (String × α)
  | [], k, v => [(k, v)]
  | p :: rest, k, v => if p.1 = k then (k, v) :: rest else p :: setKey rest k v

/-! ### Transcript data model (`extension/src/types.ts`) -/

/-- One timed caption segment (`TranscriptSegment` in `types.ts`); times are
modelled as rationals. -/
structure TranscriptSegment where
  startTime : ℚ
  endTime : ℚ
  text : String
deriving DecidableEq, Repr

/-- A fetched transcript (`TranscriptData` in `types.ts`). -/
structure TranscriptData where
  videoId : String
  segments : List TranscriptSegment
  language : String
deriving DecidableEq, Repr

/-! ### `parseTimedtext` (`extension/src/youtube-transcript.ts`, lines 65-104) -/

/-- An `<entry>` element of the timedtext XML as seen by `parseTimedtext`:
its `start` and `dur` attributes (absent attributes are `none`) and its text
content. -/
structure XmlEntry where
  start : Option String
  dur : Option String
  text : String
deriving DecidableEq, Repr

/-- Value of a decimal digit character (the code points 48-57). -/
def digitVal (c : Char) : Option Nat :=
  if 48 ≤ c.toNat ∧ c.toNat ≤ 57 then some (c.toNat - 48) else none

/-- Digit-string to natural number, `none` on any non-digit. -/
def digitsToNat (l : List Char) : Option Nat :=
  l.foldl (fun acc c => acc.bind (fun n => (digitVal c).map (fun d => n * 10 + d))) (some 0)

/-- Model of JavaScript `parseFloat` on the decimal strings appearing in
timedtext attributes (sign, integer part, optional fractional part);
unparsable input is mapped to `0` (standing in for `NaN`, whose value no
verified property depends on). -/
def parseFloat (s : String) : ℚ :=
  let (neg, l) :=
    match s.data with
    | '-' :: rest => (true, rest)
    | l => (false, l)
  let ip := l.takeWhile (fun c => c ≠ '.')
  let fp := (l.dropWhile (fun c => c ≠ '.')).drop 1
  match digitsToNat ip, digitsToNat fp with
  | some i, some f =>
      (if neg then (-1 : ℚ) else 1) * ((i : ℚ) + (f : ℚ) / ((10 : ℚ) ^ fp.length))
  | _, _ => 0

/-- Model of JavaScript `String.prototype.trim`: strip leading and trailing
whitespace. -/
def jsTrim (s : String) : String :=
  String.mk (((s.data.dropWhile Char.isWhitespace).reverse.dropWhile Char.isWhitespace).reverse)

/-- `parseTimedtext` from `youtube-transcript.ts`: for each `<entry>` with
truthy (present and non-empty) `start` and `dur` attributes and non-empty
trimmed text, emit a segment with `startTime = parseFloat start`,
`endTime = startTime + parseFloat dur`, and the entity-decoded trimmed text.
The browser's HTML-entity decoding (done via a `textarea` element in the
source) is passed in as `decodeEntities`. -/
def parseTimedtext (decodeEntities : String → String) (entries : List XmlEntry) :
    List TranscriptSegment :=
  entries.filterMap (fun e =>
    match e.start, e.dur with
    | some startStr, some durStr =>
        let text := jsTrim e.text
        if startStr ≠ "" ∧ durStr ≠ "" ∧ text ≠ "" then
          let startTime := parseFloat startStr
          let duration := parseFloat durStr
          some { startTime := startTime, endTime := startTime + duration,
                 text := decodeEntities text }
        else none
    | _, _ => none)

/-! ### Transcript cache (`youtube-transcript.ts`, lines 176-229)

`chrome.storage.local` holds a single record under the key
`transcriptCache`, mapping video ids to transcripts; the success path of
the two async functions is embedded (their `catch` arms only log). -/

/-- The cache record stored under `transcriptCache`. -/
abbrev TranscriptCache : Type := List (String × TranscriptData)

/-- `cacheTranscript`: read the cache record, bind `transcript.videoId` to
the transcript, write the record back. -/
def cacheTranscript (cache : TranscriptCache) (t : TranscriptData) : TranscriptCache :=
  setKey cache t.videoId t

/-- `getCachedTranscript`: read the cache record and return
`cache[videoId] || null`. -/
def getCachedTranscript (cache : TranscriptCache) (videoId : String) :
    Option TranscriptData :=
  lookupKey cache videoId

/-! ### ResearchData and `research_data_reducer`

Modelled from the spec: the Python module `research_agent/models/state.py`
holding `ResearchData` and `research_data_reducer` is not part of `src/`
(only `docs/STATE_PERSISTENCE.md` documents it); the definitions below
follow §4.4 of the specification. -/

/-- Modelled from the spec: one collected research record (`ResearchData`
in the missing `research_agent.models.state`): stable source identity,
content, relevance score, contributing worker, collection timestamp. -/
structure ResearchData where
  source_id : String
  content : String
  relevance : ℚ
  worker : String
  collected_at : Nat
deriving DecidableEq, Repr

/-- All records of a batch carrying the given `source_id`. -/
def groupFor (id : String) (l : List ResearchData) : List ResearchData :=
  l.filter (fun r => r.source_id = id)

/-- The record of `a :: l` with the most recent collection timestamp (the
earliest such record wins ties, deterministically). -/
def newestIn (a : ResearchData) (l : List ResearchData) : ResearchData :=
  l.foldl (fun best r => if best.collected_at < r.collected_at then r else best) a

/-- The maximum relevance score over `a :: l`. -/
def maxRelIn (a : ResearchData) (l : List ResearchData) : ℚ :=
  l.foldl (fun m r => max m r.relevance) a.relevance

/-- Resolve one `source_id` group: the newest record survives, carrying the
maximum relevance seen across the group. -/
def mergeGroup (a : ResearchData) (l : List ResearchData) : ResearchData :=
  { newestIn a l with relevance := maxRelIn a l }

/-- The merged record for `id` in batch `all` (`none` when `id` is absent). -/
def mergeFor (all : List ResearchData) (id : String) : Option ResearchData :=
  match groupFor id all with
  | [] => none
  | a :: l => some (mergeGroup a l)

/-- Deterministic sort key: collection timestamp first (the spec orders
output by timestamp, oldest first), remaining fields as tie breaks so the
order relation is antisymmetric. -/
def rdKey (r : ResearchData) : Nat ×ₗ (String ×ₗ (String ×ₗ (String ×ₗ ℚ))) :=
  toLex (r.collected_at, toLex (r.source_id, toLex (r.content, toLex (r.worker, r.relevance))))

/-- The order `research_data_reducer` sorts by. -/
def rdLE (a b : ResearchData) : Prop := rdKey a ≤ rdKey b

instance : DecidableRel rdLE := fun a b => inferInstanceAs (Decidable (rdKey a ≤ rdKey b))

instance : IsTotal ResearchData rdLE := ⟨fun a b => le_total (rdKey a) (rdKey b)⟩

instance : IsTrans ResearchData rdLE := ⟨fun _ _ _ h1 h2 => le_trans h1 h2⟩

instance : IsAntisymm ResearchData rdLE := by
  constructor
  intro a b h1 h2
  have hk : rdKey a = rdKey b := le_antisymm h1 h2
  unfold rdKey at hk
  have h3 := toLex.injective hk
  rw [Prod.mk.injEq] at h3
  have h4 := toLex.injective h3.2
  rw [Prod.mk.injEq] at h4
  have h5 := toLex.injective h4.2
  rw [Prod.mk.injEq] at h5
  have h6 := toLex.injective h5.2
  rw [Prod.mk.injEq] at h6
  cases a; cases b
  simp_all

/-- Modelled from the spec (§4.4): `research_data_reducer(existing,
incoming)` groups `existing ++ incoming` by `source_id`; for each group the
record with the most recent collection timestamp survives, carrying the
maximum relevance score seen across the group; the output is ordered by
collection timestamp, oldest first. -/
def research_data_reducer (existing incoming : List ResearchData) : List ResearchData :=
  let all := existing ++ incoming
  let ids := (all.map (fun r => r.source_id)).dedup
  (ids.filterMap (mergeFor all)).insertionSort rdLE

/-! ### Source and `source_map_reducer`

Modelled from the spec: `Source` and `source_map_reducer` live in the same
missing Python module; the definitions follow §3 and §4.4. -/

/-- Modelled from the spec: a canonical registry entry for a `source_id`:
URL, title, first-seen timestamp, contributing workers (a growth-only
set). -/
structure Source where
  url : String
  title : String
  first_seen : Nat
  workers : List String
deriving DecidableEq, Repr

/-- Merge two `Source` entries for the same id: union the contributor sets
and keep the earliest first-seen timestamp (URL and title follow the
existing entry). -/
def mergeSource (e n : Source) : Source :=
  { url := e.url
    title := e.title
    first_seen := min e.first_seen n.first_seen
    workers := e.workers ++ n.workers.filter (fun w => w ∉ e.workers) }

/-- Modelled from the spec (§4.4): `source_map_reducer(existing, incoming)`
union-merges by `source_id`: every existing entry is kept (merged with the
incoming entry for the same id when there is one) and incoming entries with
fresh ids are appended. -/
def source_map_reducer (existing incoming : List (String × Source)) :
    List (String × Source) :=
  (existing.map (fun p =>
    match lookupKey incoming p.1 with
    | some n => (p.1, mergeSource p.2 n)
    | none => p))
  ++ incoming.filter (fun q => lookupKey existing q.1 = none)

/-! ### ResearchThreadState and serialization

Modelled from the spec: `ResearchState` / `serialize_state` /
`deserialize_state` (the `research_agent.models.state` and
`research_agent.state_utils` modules) are absent from `src/`; the structure
follows §3 of the specification and the field list in
`docs/STATE_PERSISTENCE.md`, with datetimes as natural-number timestamps
that serialization renders as decimal strings (the ISO-string step). -/

/-- Modelled from the spec: the full research thread state (`ResearchState`
in the missing module). Timestamps live inside `research_data`,
`source_map` and `visit_history`. -/
structure RState where
  task : String
  perspectives : List String
  plan : Option String
  research_data : List ResearchData
  source_map : List (String × Source)
  draft_sections : List String
  final_report : Option String
  critique : Option String
  revision_count : Nat
  visit_history : List (String × Nat)
  awaiting_approval : Bool
  user_feedback : Option String
  error : Option String
deriving DecidableEq, Repr

/-- Decimal digit character of a value below ten. -/
def digitChar (n : Nat) : Char :=
  Char.ofNat (48 + n % 10)

/-- Little-endian decimal digits of `n`, driven by explicit fuel so that the
definition is structural. -/
def encNatAux : Nat → Nat → List Char
  | 0, _ => []
  | fuel + 1, n => if n < 10 then [digitChar n] else digitChar (n % 10) :: encNatAux fuel (n / 10)

/-- Decimal string of a timestamp (the serialized form of a datetime). -/
def encNat (n : Nat) : String :=
  String.mk (encNatAux (n + 1) n).reverse

/-- Decode a little-endian decimal digit list. -/
def decNatLE : List Char → Option Nat
  | [] => none
  | [c] => digitVal c
  | c :: rest => (digitVal c).bind (fun d => (decNatLE rest).map (fun m => d + 10 * m))

/-- Parse a serialized timestamp back to a natural number. -/
def decNat (s : String) : Option Nat :=
  decNatLE s.data.reverse

/-- Serialized form of a `ResearchData` record: the timestamp has become a
string. -/
structure SResearchData where
  source_id : String
  content : String
  relevance : ℚ
  worker : String
  collected_at : String
deriving DecidableEq, Repr

/-- Serialized form of a `Source` entry. -/
structure SSource where
  url : String
  title : String
  first_seen : String
  workers : List String
deriving DecidableEq, Repr

/-- Serialized form of the whole thread state: every timestamp field has
become a decimal string, everything else is carried verbatim. -/
structure SState where
  task : String
  perspectives : List String
  plan : Option String
  research_data : List SResearchData
  source_map : List (String × SSource)
  draft_sections : List String
  final_report : Option String
  critique : Option String
  revision_count : Nat
  visit_history : List (String × String)
  awaiting_approval : Bool
  user_feedback : Option String
  error : Option String
deriving DecidableEq, Repr

/-- Serialize one research record. -/
def serializeRD (r : ResearchData) : SResearchData :=
  { source_id := r.source_id, content := r.content, relevance := r.relevance,
    worker := r.worker, collected_at := encNat r.collected_at }

/-- Deserialize one research record. -/
def deserializeRD (r : SResearchData) : Option ResearchData :=
  (decNat r.collected_at).map (fun ts =>
    { source_id := r.source_id, content := r.content, relevance := r.relevance,
      worker := r.worker, collected_at := ts })

/-- Serialize one source entry. -/
def serializeSource (s : Source) : SSource :=
  { url := s.url, title := s.title, first_seen := encNat s.first_seen,
    workers := s.workers }

/-- Deserialize one source entry. -/
def deserializeSource (s : SSource) : Option Source :=
  (decNat s.first_seen).map (fun ts =>
    { url := s.url, title := s.title, first_seen := ts, workers := s.workers })

/-- Option-valued traversal of a list. -/
def traverseOpt {α β : Type} (f : α → Option β) : List α → Option (List β)
  | [] => some []
  | a :: l =>
    match f a, traverseOpt f l with
    | some b, some bl => some (b :: bl)
    | _, _ => none

/-- Modelled from the spec: `serialize_state` renders every datetime field
as a string and carries all other fields verbatim, producing a
transport-neutral structure. -/
def serialize_state (st : RState) : SState :=
  { task := st.task
    perspectives := st.perspectives
    plan := st.plan
    research_data := st.research_data.map serializeRD
    source_map := st.source_map.map (fun p => (p.1, serializeSource p.2))
    draft_sections := st.draft_sections
    final_report := st.final_report
    critique := st.critique
    revision_count := st.revision_count
    visit_history := st.visit_history.map (fun p => (p.1, encNat p.2))
    awaiting_approval := st.awaiting_approval
    user_feedback := st.user_feedback
    error := st.error }

/-- Modelled from the spec: `deserialize_state` parses every serialized
timestamp back, restoring the original state; it fails on malformed
timestamp strings. -/
def deserialize_state (s : SState) : Option RState :=
  match traverseOpt deserializeRD s.research_data,
        traverseOpt (fun p => (deserializeSource p.2).map (fun v => (p.1, v))) s.source_map,
        traverseOpt (fun p => (decNat p.2).map (fun v => (p.1, v))) s.visit_history with
  | some rd, some sm, some vh =>
      some { task := s.task
             perspectives := s.perspectives
             plan := s.plan
             research_data := rd
             source_map := sm
             draft_sections := s.draft_sections
             final_report := s.final_report
             critique := s.critique
             revision_count := s.revision_count
             visit_history := vh
             awaiting_approval := s.awaiting_approval
             user_feedback := s.user_feedback
             error := s.error }
  | _, _, _ => none

/-! ### CheckpointStore and HITLController

Modelled from the spec: `SQLiteCheckpointStore` and `HITLManager`
(`research_agent.persistence`, `research_agent.hitl`) are absent from
`src/`; the model follows §4.5 and §4.6 and the API shown in
`docs/STATE_PERSISTENCE.md`.  The store is the list of checkpoints in save
order; checkpoint ids are assigned from the store's own sequence. -/

/-- Modelled from the spec: a persisted checkpoint (§3). -/
structure Checkpoint where
  thread_id : String
  checkpoint_id : Nat
  parent_checkpoint_id : Option Nat
  state : RState
  node : String
deriving DecidableEq, Repr

/-- The store: all checkpoints ever saved, in save order (append-only). -/
abbrev Store : Type := List Checkpoint

/-- Modelled from the spec: `save_checkpoint` appends a new checkpoint,
never touching existing ones; the fresh id comes from the store's own
sequence. -/
def saveCheckpoint (store : Store) (tid : String) (st : RState) (node : String)
    (parent : Option Nat) : Store :=
  store ++ [{ thread_id := tid, checkpoint_id := List.length store,
              parent_checkpoint_id := parent, state := st, node := node }]

/-- Modelled from the spec: `get_checkpoint` with an explicit id: point
lookup by checkpoint id. -/
def getCheckpoint (store : Store) (cid : Nat) : Option Checkpoint :=
  List.find? (fun c => c.checkpoint_id = cid) store

/-- Modelled from the spec: `get_checkpoint` without an id returns the most
recently saved checkpoint of the thread (latest always follows save order,
parent links are advisory only). -/
def latestCheckpoint (store : Store) (tid : String) : Option Checkpoint :=
  (List.filter (fun c => c.thread_id = tid) store).getLast?

/-- A sequence of save operations: thread id, state, node label, parent id. -/
abbrev SaveOp : Type := String × RState × String × Option Nat

/-- Apply a sequence of saves to the store, oldest first. -/
def applySaves (store : Store) : List SaveOp → Store
  | [] => store
  | op :: ops => applySaves (saveCheckpoint store op.1 op.2.1 op.2.2.1 op.2.2.2) ops

/-- Modelled from the spec (§4.6): `can_resume(thread_id, max_revisions)`
returns false with "No checkpoint found" if none exists; false with
"Awaiting approval" if the latest checkpoint still has
`awaiting_approval = true`; false with "Maximum revisions reached" if
`revision_count >= max_revisions`; false with "Error in state" if the error
field is set; otherwise true. -/
def can_resume (store : Store) (tid : String) (max_revisions : Nat) : Bool × String :=
  match latestCheckpoint store tid with
  | none => (false, "No checkpoint found")
  | some c =>
    if c.state.awaiting_approval then (false, "Awaiting approval")
    else if max_revisions ≤ c.state.revision_count then (false, "Maximum revisions reached")
    else
      match c.state.error with
      | some _ => (false, "Error in state")
      | none => (true, "Ready to resume")

/-- Modelled from the spec (§4.6): `inject_approval` loads the latest
checkpoint, clears `awaiting_approval`, records the feedback, and re-saves
the state as a new checkpoint with the prior one as parent.  On a thread
with no checkpoint it is a no-op. -/
def inject_approval (store : Store) (tid : String) (approved : Bool)
    (feedback : Option String) : Store :=
  match latestCheckpoint store tid with
  | none => store
  | some c =>
      let st := { c.state with awaiting_approval := false, user_feedback := feedback }
      saveCheckpoint store tid st (if approved then "approved" else "revision_requested")
        (some c.checkpoint_id)

/-! ### SearchClient provider chain

Modelled from the spec: `SearchClient` and the provider adapters
(`research_agent/clients/search.py`) are absent from `src/`; the model
follows §4.2: a fixed chain (primary, then fallbacks in declared order); a
provider whose breaker is open, or whose call fails after its retries, is
skipped; the first successful provider's results are returned; if every
provider fails the call surfaces `SearchUnavailable`. -/

/-- Modelled from the spec: a normalized search result (§3). -/
structure SearchResult where
  url : String
  title : String
  content : String
  provider : String
  relevance : ℚ
  domain : String
deriving DecidableEq, Repr

/-- Modelled from the spec: the observable behaviour of one provider in the
chain for a given query: whether its circuit breaker is currently open, and
the outcome of actually calling it (`none` = transient errors exhausted the
retries). -/
structure ProviderRun where
  name : String
  breakerOpen : Bool
  outcome : Option (List SearchResult)
deriving DecidableEq, Repr

/-- The outcome of `SearchClient.search`. -/
inductive SearchOutcome where
  | results : List SearchResult → SearchOutcome
  | searchUnavailable : SearchOutcome
deriving DecidableEq, Repr

/-- One attempt against a provider: an open breaker rejects the call
immediately, otherwise the call's own outcome decides. -/
def attemptProvider (p : ProviderRun) : Option (List SearchResult) :=
  if p.breakerOpen then none else p.outcome

/-- Modelled from the spec (§4.2): walk the fixed provider chain in order
and return the first successful provider's results; fail with
`SearchUnavailable` only when every provider in the chain has failed. -/
def searchChain : List ProviderRun → SearchOutcome
  | [] => .searchUnavailable
  | p :: rest =>
    match attemptProvider p with
    | some rs => .results rs
    | none => searchChain rest

/-! ### CircuitBreaker

Modelled from the spec: the per-target `CircuitBreaker`
(`research_agent/clients/search.py`) is absent from `src/`; the state
machine follows §4.1: closed / open / half-open, closed→open once the
consecutive failure count reaches the configured threshold, open→half-open
after the cool-down (the transition admits the single trial call),
half-open→closed on a successful trial, half-open→open on a failed
trial. -/

/-- Breaker state: closed (normal), opened at a given time (calls
rejected), half-open (the one trial call has been admitted). -/
inductive BreakerState where
  | closed : BreakerState
  | opened : Nat → BreakerState
  | halfOpen : BreakerState
deriving DecidableEq, Repr

/-- Per-target breaker: consecutive failure counter and state. -/
structure Breaker where
  failures : Nat
  st : BreakerState
deriving DecidableEq, Repr

/-- Breaker configuration: failure threshold and cool-down length. -/
structure BreakerConfig where
  threshold : Nat
  cooldown : Nat
deriving DecidableEq, Repr

/-- A fresh breaker: closed, no recorded failures. -/
def freshBreaker : Breaker := { failures := 0, st := .closed }

/-- Modelled from the spec (§4.1): `record_outcome(target, success)`.  A
success resets the failure counter and closes a half-open breaker; a
failure increments the counter, trips a closed breaker whose count reaches
the threshold, and reopens a half-open breaker. -/
def record_outcome (cfg : BreakerConfig) (b : Breaker) (success : Bool) (now : Nat) :
    Breaker :=
  if success then
    match b.st with
    | .halfOpen => { failures := 0, st := .closed }
    | s => { failures := 0, st := s }
  else
    match b.st with
    | .closed =>
        if cfg.threshold ≤ b.failures + 1 then { failures := b.failures + 1, st := .opened now }
        else { failures := b.failures + 1, st := .closed }
    | .halfOpen => { failures := b.failures + 1, st := .opened now }
    | .opened t => { failures := b.failures + 1, st := .opened t }

/-- Modelled from the spec (§4.1): `admit(target)`.  Closed admits; open
rejects until the cool-down has elapsed, then moves to half-open admitting
that single trial call; half-open rejects further calls until the trial's
outcome is recorded. -/
def admitTarget (cfg : BreakerConfig) (b : Breaker) (now : Nat) : Bool × Breaker :=
  match b.st with
  | .closed => (true, b)
  | .opened t =>
      if t + cfg.cooldown ≤ now then (true, { b with st := .halfOpen })
      else (false, b)
  | .halfOpen => (false, b)

/-- Record `k` consecutive failures, all at time `now`. -/
def recordFails (cfg : BreakerConfig) (b : Breaker) (now : Nat) : Nat → Breaker
  | 0 => b
  | k + 1 => recordFails cfg (record_outcome cfg b false now) now k

/-! ## Helper lemmas -/

theorem lookupKey_setKey_same {α : Type} (c : List (String × α)) (k : String) (v : α) :
    lookupKey (setKey c k v) k = some v := by
  induction c with
  | nil => simp [setKey, lookupKey]
  | cons p rest ih =>
    by_cases h : p.1 = k
    · simp [setKey, h, lookupKey]
    · simp [setKey, h, lookupKey, ih]

theorem lookupKey_setKey_other {α : Type} (c : List (String × α)) (k k' : String) (v : α)
    (hne : k' ≠ k) : lookupKey (setKey c k v) k' = lookupKey c k' := by
  induction c with
  | nil => simp [setKey, lookupKey, Ne.symm hne]
  | cons p rest ih =>
    by_cases h : p.1 = k
    · simp [setKey, h, lookupKey, Ne.symm hne]
    · simp only [setKey, h, if_false, lookupKey]
      by_cases h2 : p.1 = k'
      · simp [h2]
      · simp [h2, ih]

theorem lookupKey_eq_none {α : Type} (c : List (String × α)) (k : String)
    (h : ∀ p ∈ c, p.1 ≠ k) : lookupKey c k = none := by
  induction c with
  | nil => rfl
  | cons p rest ih =>
    simp only [lookupKey, h p (by simp), if_false]
    exact ih (fun q hq => h q (by simp [hq]))

/-! ## C10: transcript cache round-trip -/

/-- C10: the transcript cache round-trips and preserves unrelated entries:
after a successful `cacheTranscript t`, `getCachedTranscript t.videoId`
returns `t`; every other video id still maps to what it mapped to before;
and a video id with no cached entry yields `none` (the `null` return). -/
theorem C10_cache_roundtrip :
    (∀ (cache : TranscriptCache) (t : TranscriptData),
      getCachedTranscript (cacheTranscript cache t) t.videoId = some t)
    ∧ (∀ (cache : TranscriptCache) (t : TranscriptData) (v : String), v ≠ t.videoId →
      getCachedTranscript (cacheTranscript cache t) v = getCachedTranscript cache v)
    ∧ (∀ (cache : TranscriptCache) (v : String), (∀ p ∈ cache, p.1 ≠ v) →
      getCachedTranscript cache v = none) := by
  refine ⟨fun cache t => ?_, fun cache t v hv => ?_, fun cache v hv => ?_⟩
  · exact lookupKey_setKey_same cache t.videoId t
  · exact lookupKey_setKey_other cache t.videoId v t hv
  · exact lookupKey_eq_none cache v hv

/-- Witness for C10 at concrete inputs. -/
theorem C10_cache_roundtrip_witness :
    getCachedTranscript
        (cacheTranscript [("w", (⟨"w", [], "de"⟩ : TranscriptData))]
          (⟨"a", [], "en"⟩ : TranscriptData)) "a"
      = some (⟨"a", [], "en"⟩ : TranscriptData)
    ∧ getCachedTranscript
        (cacheTranscript [("w", (⟨"w", [], "de"⟩ : TranscriptData))]
          (⟨"a", [], "en"⟩ : TranscriptData)) "w"
      = some (⟨"w", [], "de"⟩ : TranscriptData)
    ∧ getCachedTranscript ([] : TranscriptCache) "missing" = none := by
  refine ⟨C10_cache_roundtrip.1 _ _, ?_, C10_cache_roundtrip.2.2 _ _ (by simp)⟩
  have h := C10_cache_roundtrip.2.1
    [("w", (⟨"w", [], "de"⟩ : TranscriptData))] (⟨"a", [], "en"⟩ : TranscriptData)
    "w" (by decide)
  rw [h]
  rfl

/-! ## C9: `parseTimedtext` emits only well-formed segments -/

/-- C9: `parseTimedtext` is a total function into segment lists; every
emitted segment comes from an `<entry>` whose `start` and `dur` attributes
are present and non-empty and whose trimmed text is non-empty, and its
`endTime` is exactly `startTime + duration` for the parsed attribute
values. -/
theorem C9_parseTimedtext_wellformed :
    ∀ (decodeEntities : String → String) (entries : List XmlEntry),
      ∀ seg ∈ parseTimedtext decodeEntities entries,
        ∃ e ∈ entries, ∃ s d, e.start = some s ∧ s ≠ "" ∧ e.dur = some d ∧ d ≠ "" ∧
          jsTrim e.text ≠ "" ∧ seg.startTime = parseFloat s ∧
          seg.endTime = seg.startTime + parseFloat d ∧
          seg.text = decodeEntities (jsTrim e.text) := by
  intro dec entries seg hseg
  unfold parseTimedtext at hseg
  rw [List.mem_filterMap] at hseg
  obtain ⟨e, he, hfe⟩ := hseg
  cases hs : e.start with
  | none => rw [hs] at hfe; simp at hfe
  | some s =>
    cases hd : e.dur with
    | none => rw [hs, hd] at hfe; simp at hfe
    | some d =>
      rw [hs, hd] at hfe
      simp only at hfe
      by_cases hc : s ≠ "" ∧ d ≠ "" ∧ jsTrim e.text ≠ ""
      · rw [if_pos hc] at hfe
        obtain ⟨h1, h2, h3⟩ := hc
        refine ⟨e, he, s, d, hs, h1, hd, h2, h3, ?_, ?_, ?_⟩ <;>
          (cases hfe; rfl)
      · rw [if_neg hc] at hfe
        exact absurd hfe (by simp)

/-- Witness for C9 at a concrete entry list. -/
theorem C9_parseTimedtext_wellformed_witness :
    ∃ e ∈ [({ start := some "1", dur := some "2", text := " hi " } : XmlEntry)],
      ∃ s d, e.start = some s ∧ s ≠ "" ∧ e.dur = some d ∧ d ≠ "" ∧
        jsTrim e.text ≠ "" ∧
        (⟨parseFloat "1", parseFloat "1" + parseFloat "2", "hi"⟩ :
            TranscriptSegment).startTime = parseFloat s ∧
        (⟨parseFloat "1", parseFloat "1" + parseFloat "2", "hi"⟩ :
            TranscriptSegment).endTime =
          (⟨parseFloat "1", parseFloat "1" + parseFloat "2", "hi"⟩ :
            TranscriptSegment).startTime + parseFloat d ∧
        (⟨parseFloat "1", parseFloat "1" + parseFloat "2", "hi"⟩ :
            TranscriptSegment).text = (fun t => t) (jsTrim e.text) :=
  C9_parseTimedtext_wellformed (fun t => t)
    [({ start := some "1", dur := some "2", text := " hi " } : XmlEntry)]
    (⟨parseFloat "1", parseFloat "1" + parseFloat "2", "hi"⟩ : TranscriptSegment)
    (List.mem_singleton.mpr rfl)

/-! ## C7: the provider chain fails only when every provider fails -/

/-- C7: `search` surfaces `SearchUnavailable` exactly when every provider
in the fixed chain fails (an open breaker counts as a failed attempt), and
whenever the providers before `p` all fail and `p` succeeds — for instance
when the primary's breaker is open — the chain returns `p`'s results
without raising. -/
theorem C7_searchChain_fallback :
    (∀ ps : List ProviderRun,
      searchChain ps = .searchUnavailable ↔ ∀ p ∈ ps, attemptProvider p = none)
    ∧ (∀ (pre : List ProviderRun) (p : ProviderRun) (post : List ProviderRun)
        (rs : List SearchResult),
        (∀ q ∈ pre, attemptProvider q = none) → attemptProvider p = some rs →
        searchChain (pre ++ p :: post) = .results rs) := by
  constructor
  · intro ps
    induction ps with
    | nil => simp [searchChain]
    | cons p rest ih =>
      cases hp : attemptProvider p with
      | none => simp [searchChain, hp, ih]
      | some rs => simp [searchChain, hp]
  · intro pre p post rs hpre hp
    induction pre with
    | nil => simp [searchChain, hp]
    | cons q rest ih =>
      have hq : attemptProvider q = none := hpre q (by simp)
      simp only [List.cons_append, searchChain, hq]
      exact ih (fun q' hq' => hpre q' (by simp [hq']))

/-- Witness for C7: the primary's breaker is open, the fallback succeeds,
and the chain returns the fallback's results. -/
theorem C7_searchChain_fallback_witness :
    searchChain
        [⟨"tavily", true, some [⟨"u0", "t0", "c0", "tavily", 1, "d0"⟩]⟩,
         ⟨"duckduckgo", false, some [⟨"u1", "t1", "c1", "duckduckgo", 1, "d1"⟩]⟩]
      = .results [⟨"u1", "t1", "c1", "duckduckgo", 1, "d1"⟩] :=
  C7_searchChain_fallback.2
    [⟨"tavily", true, some [⟨"u0", "t0", "c0", "tavily", 1, "d0"⟩]⟩]
    ⟨"duckduckgo", false, some [⟨"u1", "t1", "c1", "duckduckgo", 1, "d1"⟩]⟩
    [] [⟨"u1", "t1", "c1", "duckduckgo", 1, "d1"⟩]
    (by intro q hq; simp at hq; subst hq; rfl) rfl

/-! ## C3: `source_map_reducer` is growth-only -/

theorem lookupKey_mem {α : Type} {c : List (String × α)} {k : String} {v : α}
    (h : lookupKey c k = some v) : (k, v) ∈ c := by
  induction c with
  | nil => simp [lookupKey] at h
  | cons p rest ih =>
    by_cases hp : p.1 = k
    · rw [lookupKey, if_pos hp] at h
      cases h
      have hpe : (k, p.2) = p := by rw [← hp]
      rw [hpe]
      exact List.mem_cons_self p rest
    · rw [lookupKey, if_neg hp] at h
      exact List.mem_cons_of_mem _ (ih h)

theorem mem_workers_mergeSource (e n : Source) (w : String) :
    w ∈ (mergeSource e n).workers ↔ w ∈ e.workers ∨ w ∈ n.workers := by
  simp only [mergeSource, List.mem_append, List.mem_filter, decide_eq_true_iff]
  by_cases hw : w ∈ e.workers <;> simp [hw]

/-- C3: `source_map_reducer` is growth-only: every source_id of the
existing map appears in the result with a contributor set that contains all
of its existing contributors, and where both sides define a `Source` for
the same id the result's contributor set is exactly the union of the two
sides' contributor sets with the earlier of the two first-seen
timestamps. -/
theorem C3_source_map_reducer_growth :
    (∀ (existing incoming : List (String × Source)) (p : String × Source),
      p ∈ existing →
      ∃ s, (p.1, s) ∈ source_map_reducer existing incoming ∧
        ∀ w ∈ p.2.workers, w ∈ s.workers)
    ∧ (∀ (existing incoming : List (String × Source)) (id : String) (e n : Source),
        lookupKey existing id = some e → lookupKey incoming id = some n →
        ∃ s, (id, s) ∈ source_map_reducer existing incoming ∧
          (∀ w, w ∈ s.workers ↔ (w ∈ e.workers ∨ w ∈ n.workers)) ∧
          s.first_seen = min e.first_seen n.first_seen) := by
  constructor
  · intro existing incoming p hp
    unfold source_map_reducer
    cases hl : lookupKey incoming p.1 with
    | none =>
      refine ⟨p.2, ?_, fun w hw => hw⟩
      apply List.mem_append_left
      have : (fun q : String × Source =>
          match lookupKey incoming q.1 with
          | some n => (q.1, mergeSource q.2 n)
          | none => q) p = p := by simp only [hl]
      rw [← this]
      exact List.mem_map_of_mem _ hp
    | some n =>
      refine ⟨mergeSource p.2 n, ?_, fun w hw => ?_⟩
      · apply List.mem_append_left
        have : (fun q : String × Source =>
            match lookupKey incoming q.1 with
            | some m => (q.1, mergeSource q.2 m)
            | none => q) p = (p.1, mergeSource p.2 n) := by simp only [hl]
        rw [← this]
        exact List.mem_map_of_mem _ hp
      · exact (mem_workers_mergeSource p.2 n w).mpr (Or.inl hw)
  · intro existing incoming id e n he hn
    refine ⟨mergeSource e n, ?_, fun w => mem_workers_mergeSource e n w, rfl⟩
    unfold source_map_reducer
    apply List.mem_append_left
    have hmem : (id, e) ∈ existing := lookupKey_mem he
    have : (fun q : String × Source =>
        match lookupKey incoming q.1 with
        | some m => (q.1, mergeSource q.2 m)
        | none => q) (id, e) = (id, mergeSource e n) := by
      simp only [hn]
    rw [← this]
    exact List.mem_map_of_mem _ hmem

/-- Witness for C3: merging two singleton maps over the same source id
unions the contributors and keeps the earlier first-seen timestamp. -/
theorem C3_source_map_reducer_growth_witness :
    ∃ s, ("src_1", s) ∈ source_map_reducer
        [("src_1", (⟨"u", "t", 5, ["w1"]⟩ : Source))]
        [("src_1", (⟨"u2", "t2", 3, ["w2"]⟩ : Source))] ∧
      (∀ w, w ∈ s.workers ↔ (w ∈ ["w1"] ∨ w ∈ ["w2"])) ∧
      s.first_seen = min 5 3 :=
  C3_source_map_reducer_growth.2
    [("src_1", (⟨"u", "t", 5, ["w1"]⟩ : Source))]
    [("src_1", (⟨"u2", "t2", 3, ["w2"]⟩ : Source))]
    "src_1" ⟨"u", "t", 5, ["w1"]⟩ ⟨"u2", "t2", 3, ["w2"]⟩ (by decide) (by decide)

/-! ## C8: circuit-breaker state machine -/

theorem recordFails_closed_sub (cfg : BreakerConfig) (now : Nat) :
    ∀ (k j : Nat), j + k < cfg.threshold →
      recordFails cfg ⟨j, .closed⟩ now k = ⟨j + k, .closed⟩ := by
  intro k
  induction k with
  | zero => intro j _; rfl
  | succ k ih =>
    intro j hj
    have hstep : record_outcome cfg ⟨j, .closed⟩ false now = ⟨j + 1, .closed⟩ := by
      have : ¬ cfg.threshold ≤ j + 1 := by omega
      simp [record_outcome, this]
    rw [recordFails, hstep, ih (j + 1) (by omega)]
    congr 1
    omega

theorem recordFails_trips (cfg : BreakerConfig) (now : Nat) :
    ∀ (k j : Nat), j + k = cfg.threshold → 0 < k →
      recordFails cfg ⟨j, .closed⟩ now k = ⟨cfg.threshold, .opened now⟩ := by
  intro k
  induction k with
  | zero => intro j _ h; omega
  | succ k ih =>
    intro j hj _
    cases Nat.eq_zero_or_pos k with
    | inl hk0 =>
      subst hk0
      have hth : cfg.threshold ≤ j + 1 := by omega
      have hstep : record_outcome cfg ⟨j, .closed⟩ false now = ⟨j + 1, .opened now⟩ := by
        simp [record_outcome, hth]
      have hj1 : j + 1 = cfg.threshold := by omega
      rw [recordFails, hstep, recordFails, hj1]
    | inr hkpos =>
      have hth : ¬ cfg.threshold ≤ j + 1 := by omega
      have hstep : record_outcome cfg ⟨j, .closed⟩ false now = ⟨j + 1, .closed⟩ := by
        simp [record_outcome, hth]
      rw [recordFails, hstep]
      exact ih (j + 1) (by omega) hkpos

/-- C8: the per-target breaker follows the closed/open/half-open state
machine: from a fresh (closed) breaker, `threshold` consecutive recorded
failures open it; while open, `admit` rejects every call until the
cool-down elapses; the first `admit` at or after the cool-down flips it to
half-open and admits that single trial (further calls in half-open are
rejected); a successful trial closes the breaker (after which `admit`
admits again) and a failed trial reopens it. -/
theorem C8_circuit_breaker_state_machine :
    (∀ (cfg : BreakerConfig) (now : Nat), 0 < cfg.threshold →
      recordFails cfg freshBreaker now cfg.threshold = ⟨cfg.threshold, .opened now⟩)
    ∧ (∀ (cfg : BreakerConfig) (b : Breaker) (t now : Nat),
        b.st = .opened t → now < t + cfg.cooldown →
        admitTarget cfg b now = (false, b))
    ∧ (∀ (cfg : BreakerConfig) (b : Breaker) (t now : Nat),
        b.st = .opened t → t + cfg.cooldown ≤ now →
        admitTarget cfg b now = (true, { b with st := .halfOpen }))
    ∧ (∀ (cfg : BreakerConfig) (b : Breaker) (now : Nat),
        b.st = .halfOpen → admitTarget cfg b now = (false, b))
    ∧ (∀ (cfg : BreakerConfig) (b : Breaker) (now later : Nat),
        b.st = .halfOpen →
        (record_outcome cfg b true now).st = .closed ∧
        (admitTarget cfg (record_outcome cfg b true now) later).1 = true)
    ∧ (∀ (cfg : BreakerConfig) (b : Breaker) (now : Nat),
        b.st = .halfOpen → (record_outcome cfg b false now).st = .opened now) := by
  refine ⟨fun cfg now hpos => ?_, fun cfg b t now hst hlt => ?_,
          fun cfg b t now hst hle => ?_, fun cfg b now hst => ?_,
          fun cfg b now later hst => ?_, fun cfg b now hst => ?_⟩
  · exact recordFails_trips cfg now cfg.threshold 0 (by omega) hpos
  · rw [admitTarget, hst]
    simp [Nat.not_le.mpr hlt]
  · rw [admitTarget, hst]
    simp [hle]
  · rw [admitTarget, hst]
  · have hb : record_outcome cfg b true now = ⟨0, .closed⟩ := by
      rw [record_outcome]
      simp [hst]
    rw [hb]
    exact ⟨rfl, rfl⟩
  · rw [record_outcome]
    simp [hst]

/-- Witness for C8 with threshold 3 and cool-down 10. -/
theorem C8_circuit_breaker_state_machine_witness :
    recordFails ⟨3, 10⟩ freshBreaker 100 3 = ⟨3, .opened 100⟩
    ∧ admitTarget ⟨3, 10⟩ ⟨3, .opened 100⟩ 105 = (false, ⟨3, .opened 100⟩)
    ∧ admitTarget ⟨3, 10⟩ ⟨3, .opened 100⟩ 110 = (true, ⟨3, .halfOpen⟩)
    ∧ admitTarget ⟨3, 10⟩ ⟨3, .halfOpen⟩ 111 = (false, ⟨3, .halfOpen⟩)
    ∧ (record_outcome ⟨3, 10⟩ ⟨3, .halfOpen⟩ true 112).st = .closed
    ∧ (admitTarget ⟨3, 10⟩ (record_outcome ⟨3, 10⟩ ⟨3, .halfOpen⟩ true 112) 113).1 = true
    ∧ (record_outcome ⟨3, 10⟩ ⟨3, .halfOpen⟩ false 112).st = .opened 112 :=
  ⟨C8_circuit_breaker_state_machine.1 ⟨3, 10⟩ 100 (by decide),
   C8_circuit_breaker_state_machine.2.1 ⟨3, 10⟩ ⟨3, .opened 100⟩ 100 105 rfl (by decide),
   C8_circuit_breaker_state_machine.2.2.1 ⟨3, 10⟩ ⟨3, .opened 100⟩ 100 110 rfl (by decide),
   C8_circuit_breaker_state_machine.2.2.2.1 ⟨3, 10⟩ ⟨3, .halfOpen⟩ 111 rfl,
   (C8_circuit_breaker_state_machine.2.2.2.2.1 ⟨3, 10⟩ ⟨3, .halfOpen⟩ 112 113 rfl).1,
   (C8_circuit_breaker_state_machine.2.2.2.2.1 ⟨3, 10⟩ ⟨3, .halfOpen⟩ 112 113 rfl).2,
   C8_circuit_breaker_state_machine.2.2.2.2.2 ⟨3, 10⟩ ⟨3, .halfOpen⟩ 112 rfl⟩

/-! ## Checkpoint-store lemmas -/

theorem find?_append_some {α : Type} (p : α → Bool) (l l' : List α) (a : α)
    (h : List.find? p l = some a) : List.find? p (l ++ l') = some a := by
  induction l with
  | nil => simp [List.find?] at h
  | cons b rest ih =>
    rw [List.cons_append]
    cases hb : p b with
    | true => rw [List.find?_cons_of_pos _ hb] at h ⊢; exact h
    | false =>
      rw [List.find?_cons_of_neg _ (by simp [hb])] at h ⊢
      exact ih h

theorem latestCheckpoint_save_same (store : Store) (tid : String) (st : RState)
    (node : String) (parent : Option Nat) :
    latestCheckpoint (saveCheckpoint store tid st node parent) tid =
      some ⟨tid, store.length, parent, st, node⟩ := by
  unfold latestCheckpoint saveCheckpoint
  rw [List.filter_append]
  simp only [List.filter_cons, List.filter_nil]
  rw [if_pos (by simp)]
  exact List.getLast?_concat _

theorem latestCheckpoint_save_other (store : Store) (tid : String) (st : RState)
    (node : String) (parent : Option Nat) (tid' : String) (hne : tid' ≠ tid) :
    latestCheckpoint (saveCheckpoint store tid st node parent) tid' =
      latestCheckpoint store tid' := by
  unfold latestCheckpoint saveCheckpoint
  rw [List.filter_append]
  simp only [List.filter_cons, List.filter_nil]
  rw [if_neg (by simp [Ne.symm hne]), List.append_nil]

/-! ## C5: the checkpoint store is append-only -/

/-- C5: after any further sequence of saves, every checkpoint previously
retrievable by id is still retrievable with unchanged contents, and `get`
without an explicit id returns the checkpoint most recently saved for the
thread — whatever parent link the save recorded — while other threads'
latest checkpoints are untouched. -/
theorem C5_checkpoint_store_append_only :
    (∀ (store : Store) (ops : List SaveOp) (cid : Nat) (c : Checkpoint),
      getCheckpoint store cid = some c →
      getCheckpoint (applySaves store ops) cid = some c)
    ∧ (∀ (store : Store) (tid : String) (st : RState) (node : String)
        (parent : Option Nat),
        latestCheckpoint (saveCheckpoint store tid st node parent) tid =
          some ⟨tid, store.length, parent, st, node⟩)
    ∧ (∀ (store : Store) (tid : String) (st : RState) (node : String)
        (parent : Option Nat) (tid' : String), tid' ≠ tid →
        latestCheckpoint (saveCheckpoint store tid st node parent) tid' =
          latestCheckpoint store tid') := by
  refine ⟨?_, latestCheckpoint_save_same, latestCheckpoint_save_other⟩
  intro store ops
  induction ops generalizing store with
  | nil => intro cid c h; exact h
  | cons op rest ih =>
    intro cid c h
    rw [applySaves]
    exact ih _ cid c (find?_append_some _ store _ c h)

/-- Witness for C5: one saved checkpoint survives a later save for another
thread unchanged, and latest-by-thread follows save order. -/
theorem C5_checkpoint_store_append_only_witness :
    getCheckpoint
        (applySaves
          (saveCheckpoint [] "tA"
            (⟨"q", [], none, [], [], [], none, none, 0, [], false, none, none⟩ : RState)
            "planner" none)
          [("tB",
            (⟨"q2", [], none, [], [], [], none, none, 1, [], false, none, none⟩ : RState),
            "writer", some 0)]) 0
      = some ⟨"tA", 0, none,
          ⟨"q", [], none, [], [], [], none, none, 0, [], false, none, none⟩, "planner"⟩
    ∧ latestCheckpoint
        (saveCheckpoint [] "tA"
          (⟨"q", [], none, [], [], [], none, none, 0, [], false, none, none⟩ : RState)
          "planner" none) "tA"
      = some ⟨"tA", 0, none,
          ⟨"q", [], none, [], [], [], none, none, 0, [], false, none, none⟩, "planner"⟩ :=
  ⟨C5_checkpoint_store_append_only.1
      (saveCheckpoint [] "tA"
        (⟨"q", [], none, [], [], [], none, none, 0, [], false, none, none⟩ : RState)
        "planner" none)
      [("tB",
        (⟨"q2", [], none, [], [], [], none, none, 1, [], false, none, none⟩ : RState),
        "writer", some 0)] 0 _ (by decide),
   C5_checkpoint_store_append_only.2.1 [] "tA" _ "planner" none⟩

/-! ## C4: `can_resume` reason chain (corrected) -/

/-- C4 as stated is refuted at this input: the thread's only checkpoint has
`awaiting_approval = true`, an error set and `revision_count = 0`;
`inject_approval(approved := true)` clears `awaiting_approval`, yet
`can_resume` with `max_revisions = 3` still returns false — with reason
"Error in state" — although `revision_count < max_revisions`. -/
theorem C4_counterexample :
    can_resume
        (inject_approval
          (saveCheckpoint [] "th"
            (⟨"q", [], none, [], [], [], none, none, 0, [], true, none, some "boom"⟩ : RState)
            "planner" none)
          "th" true none)
        "th" 3
      = (false, "Error in state")
    ∧ ((latestCheckpoint
          (inject_approval
            (saveCheckpoint [] "th"
              (⟨"q", [], none, [], [], [], none, none, 0, [], true, none, some "boom"⟩ : RState)
              "planner" none)
            "th" true none)
          "th").map (fun c => c.state.revision_count) = some 0) := by
  constructor <;> rfl

/-- C4 (amended): `can_resume` returns false with "No checkpoint found"
when the thread has no checkpoint; otherwise, in priority order, false with
"Awaiting approval" when the latest checkpoint's state awaits approval,
false with "Maximum revisions reached" when `revision_count ≥
max_revisions`, false with "Error in state" when the error field is set,
and true in every other case; and after `inject_approval(approved = true)`
clears `awaiting_approval`, `can_resume` returns true if and only if
`revision_count < max_revisions` **and the error field is not set**. -/
theorem C4_can_resume_cases :
    (∀ (store : Store) (tid : String) (maxr : Nat),
      latestCheckpoint store tid = none →
      can_resume store tid maxr = (false, "No checkpoint found"))
    ∧ (∀ (store : Store) (tid : String) (maxr : Nat) (c : Checkpoint),
        latestCheckpoint store tid = some c → c.state.awaiting_approval = true →
        can_resume store tid maxr = (false, "Awaiting approval"))
    ∧ (∀ (store : Store) (tid : String) (maxr : Nat) (c : Checkpoint),
        latestCheckpoint store tid = some c → c.state.awaiting_approval = false →
        maxr ≤ c.state.revision_count →
        can_resume store tid maxr = (false, "Maximum revisions reached"))
    ∧ (∀ (store : Store) (tid : String) (maxr : Nat) (c : Checkpoint) (msg : String),
        latestCheckpoint store tid = some c → c.state.awaiting_approval = false →
        c.state.revision_count < maxr → c.state.error = some msg →
        can_resume store tid maxr = (false, "Error in state"))
    ∧ (∀ (store : Store) (tid : String) (maxr : Nat) (c : Checkpoint),
        latestCheckpoint store tid = some c → c.state.awaiting_approval = false →
        c.state.revision_count < maxr → c.state.error = none →
        (can_resume store tid maxr).1 = true)
    ∧ (∀ (store : Store) (tid : String) (maxr : Nat) (fb : Option String)
        (c : Checkpoint),
        latestCheckpoint store tid = some c →
        ((can_resume (inject_approval store tid true fb) tid maxr).1 = true ↔
          (c.state.revision_count < maxr ∧ c.state.error = none))) := by
  refine ⟨?_, ?_, ?_, ?_, ?_, ?_⟩
  · intro store tid maxr h
    unfold can_resume
    rw [h]
  · intro store tid maxr c h hA
    unfold can_resume
    rw [h]
    simp [hA]
  · intro store tid maxr c h hA hrev
    unfold can_resume
    rw [h]
    simp [hA, hrev]
  · intro store tid maxr c msg h hA hrev herr
    unfold can_resume
    rw [h]
    simp [hA, Nat.not_le.mpr hrev, herr]
  · intro store tid maxr c h hA hrev herr
    unfold can_resume
    rw [h]
    simp [hA, Nat.not_le.mpr hrev, herr]
  · intro store tid maxr fb c h
    unfold inject_approval
    rw [h]
    have hl := latestCheckpoint_save_same store tid
      { c.state with awaiting_approval := false, user_feedback := fb }
      (if true then "approved" else "revision_requested") (some c.checkpoint_id)
    unfold can_resume
    rw [hl]
    simp only [Bool.false_eq_true, if_false]
    by_cases hrev : maxr ≤ c.state.revision_count
    · simp [hrev, Nat.not_lt.mpr hrev]
    · cases herr : c.state.error with
      | none => simp [hrev, Nat.lt_of_not_le hrev, herr]
      | some msg => simp [hrev, herr]

/-- Witness for C4 (amended) at concrete stores. -/
theorem C4_can_resume_cases_witness :
    can_resume ([] : Store) "none" 3 = (false, "No checkpoint found")
    ∧ can_resume
        (saveCheckpoint [] "th"
          (⟨"q", [], none, [], [], [], none, none, 0, [], true, none, none⟩ : RState)
          "planner" none) "th" 3
      = (false, "Awaiting approval")
    ∧ ((can_resume
          (inject_approval
            (saveCheckpoint [] "th"
              (⟨"q", [], none, [], [], [], none, none, 0, [], true, none, none⟩ : RState)
              "planner" none)
            "th" true none)
          "th" 3).1 = true ↔ ((0 : Nat) < 3 ∧ (none : Option String) = none)) :=
  ⟨C4_can_resume_cases.1 [] "none" 3 rfl,
   C4_can_resume_cases.2.1
     (saveCheckpoint [] "th"
       (⟨"q", [], none, [], [], [], none, none, 0, [], true, none, none⟩ : RState)
       "planner" none) "th" 3
     ⟨"th", 0, none,
       ⟨"q", [], none, [], [], [], none, none, 0, [], true, none, none⟩, "planner"⟩
     (by decide) rfl,
   C4_can_resume_cases.2.2.2.2.2
     (saveCheckpoint [] "th"
       (⟨"q", [], none, [], [], [], none, none, 0, [], true, none, none⟩ : RState)
       "planner" none) "th" 3 none
     ⟨"th", 0, none,
       ⟨"q", [], none, [], [], [], none, none, 0, [], true, none, none⟩, "planner"⟩
     (by decide)⟩

/-! ## C6: serialization round-trips losslessly -/

theorem digitVal_digitChar (n : Nat) (h : n < 10) : digitVal (digitChar n) = some n := by
  interval_cases n <;> rfl

theorem encNatAux_ne_nil (fuel n : Nat) (h : 0 < fuel) : encNatAux fuel n ≠ [] := by
  cases fuel with
  | zero => omega
  | succ fuel =>
    rw [encNatAux]
    by_cases hn : n < 10 <;> simp [hn]

theorem decNatLE_encNatAux (fuel : Nat) :
    ∀ n, n < fuel → decNatLE (encNatAux fuel n) = some n := by
  induction fuel with
  | zero => intro n h; omega
  | succ fuel ih =>
    intro n hn
    rw [encNatAux]
    by_cases h10 : n < 10
    · rw [if_pos h10]
      exact digitVal_digitChar n h10
    · rw [if_neg h10]
      have hdiv : n / 10 < fuel := by
        have h1 : n / 10 < n := Nat.div_lt_self (by omega) (by omega)
        omega
      have hfuel : 0 < fuel := by omega
      obtain ⟨c, cs, hcs⟩ :=
        List.exists_cons_of_ne_nil (encNatAux_ne_nil fuel (n / 10) hfuel)
      rw [hcs, decNatLE, digitVal_digitChar (n % 10) (Nat.mod_lt n (by omega))]
      rw [← hcs, ih (n / 10) hdiv]
      · show some (n % 10 + 10 * (n / 10)) = some n
        congr 1
        omega
      · simp

theorem decNat_encNat (n : Nat) : decNat (encNat n) = some n := by
  unfold decNat encNat
  rw [show (String.mk (encNatAux (n + 1) n).reverse).data = (encNatAux (n + 1) n).reverse
        from rfl,
      List.reverse_reverse]
  exact decNatLE_encNatAux (n + 1) n (by omega)

theorem deserializeRD_serializeRD (r : ResearchData) :
    deserializeRD (serializeRD r) = some r := by
  unfold serializeRD deserializeRD
  rw [decNat_encNat]
  rfl

theorem deserializeSource_serializeSource (s : Source) :
    deserializeSource (serializeSource s) = some s := by
  unfold serializeSource deserializeSource
  rw [decNat_encNat]
  rfl

theorem traverseOpt_map_some {α β : Type} (f : β → Option α) (g : α → β)
    (h : ∀ a, f (g a) = some a) : ∀ l : List α, traverseOpt f (l.map g) = some l := by
  intro l
  induction l with
  | nil => rfl
  | cons a rest ih =>
    rw [List.map_cons, traverseOpt, h a, ih]

/-- C6: state serialization round-trips losslessly: deserializing a
serialized `RState` restores every field of the original state, and
serializing the deserialized value again yields output identical
field-for-field to the first serialization. -/
theorem C6_serialize_state_roundtrip :
    (∀ st : RState, deserialize_state (serialize_state st) = some st)
    ∧ (∀ st st' : RState, deserialize_state (serialize_state st) = some st' →
        serialize_state st' = serialize_state st) := by
  have main : ∀ st : RState, deserialize_state (serialize_state st) = some st := by
    intro st
    unfold serialize_state deserialize_state
    rw [traverseOpt_map_some deserializeRD serializeRD deserializeRD_serializeRD,
        traverseOpt_map_some _ (fun p : String × Source => (p.1, serializeSource p.2))
          (fun p => by rw [deserializeSource_serializeSource]; rfl),
        traverseOpt_map_some _ (fun p : String × Nat => (p.1, encNat p.2))
          (fun p => by rw [decNat_encNat]; rfl)]
  refine ⟨main, fun st st' h => ?_⟩
  rw [main st] at h
  cases h
  rfl

/-- Witness for C6 at a concrete state. -/
theorem C6_serialize_state_roundtrip_witness :
    deserialize_state
        (serialize_state
          (⟨"q", ["p1"], some "plan", [], [("s", ⟨"u", "t", 7, ["w"]⟩)], ["d"],
            none, none, 2, [("planner", 12)], false, some "fb", none⟩ : RState))
      = some
          (⟨"q", ["p1"], some "plan", [], [("s", ⟨"u", "t", 7, ["w"]⟩)], ["d"],
            none, none, 2, [("planner", 12)], false, some "fb", none⟩ : RState) :=
  C6_serialize_state_roundtrip.1
    (⟨"q", ["p1"], some "plan", [], [("s", ⟨"u", "t", 7, ["w"]⟩)], ["d"],
      none, none, 2, [("planner", 12)], false, some "fb", none⟩ : RState)

/-! ## Reducer lemmas (C1, C2) -/

theorem reducer_eq (e i : List ResearchData) :
    research_data_reducer e i =
      ((((e ++ i).map (fun r => r.source_id)).dedup).filterMap
        (mergeFor (e ++ i))).insertionSort rdLE := rfl

theorem mem_groupFor {id : String} {l : List ResearchData} {r : ResearchData} :
    r ∈ groupFor id l ↔ r ∈ l ∧ r.source_id = id := by
  simp [groupFor, List.mem_filter]

theorem groupFor_append (id : String) (l1 l2 : List ResearchData) :
    groupFor id (l1 ++ l2) = groupFor id l1 ++ groupFor id l2 :=
  List.filter_append _ _

theorem newestIn_cons (a b : ResearchData) (l : List ResearchData) :
    newestIn a (b :: l) =
      newestIn (if a.collected_at < b.collected_at then b else a) l := rfl

theorem newestIn_mem (l : List ResearchData) : ∀ a, newestIn a l ∈ a :: l := by
  induction l with
  | nil => intro a; exact List.mem_singleton.mpr rfl
  | cons b rest ih =>
    intro a
    rw [newestIn_cons]
    rcases List.mem_cons.mp (ih (if a.collected_at < b.collected_at then b else a)) with
      heq | hmem
    · rw [heq]
      by_cases hc : a.collected_at < b.collected_at <;> simp [hc]
    · exact List.mem_cons_of_mem _ (List.mem_cons_of_mem _ hmem)

theorem newestIn_ts_ub (l : List ResearchData) :
    ∀ a r, r ∈ a :: l → r.collected_at ≤ (newestIn a l).collected_at := by
  induction l with
  | nil =>
    intro a r hr
    rw [List.mem_singleton] at hr
    rw [hr]
    exact le_refl _
  | cons b rest ih =>
    intro a r hr
    rw [newestIn_cons]
    have hac : a.collected_at ≤
        (if a.collected_at < b.collected_at then b else a).collected_at := by
      by_cases h : a.collected_at < b.collected_at
      · rw [if_pos h]; omega
      · rw [if_neg h]
    have hbc : b.collected_at ≤
        (if a.collected_at < b.collected_at then b else a).collected_at := by
      by_cases h : a.collected_at < b.collected_at
      · rw [if_pos h]
      · rw [if_neg h]; omega
    have hcub := ih (if a.collected_at < b.collected_at then b else a) _
      (List.mem_cons_self _ rest)
    rcases List.mem_cons.mp hr with h1 | h1
    · rw [h1]; exact le_trans hac hcub
    · rcases List.mem_cons.mp h1 with h2 | h2
      · rw [h2]; exact le_trans hbc hcub
      · exact ih _ r (List.mem_cons_of_mem _ h2)

theorem newestIn_dominated (l : List ResearchData) :
    ∀ a, (∀ r ∈ l, r.collected_at ≤ a.collected_at) → newestIn a l = a := by
  induction l with
  | nil => intro a _; rfl
  | cons b rest ih =>
    intro a h
    rw [newestIn_cons,
        if_neg (Nat.not_lt.mpr (h b (List.mem_cons_self b rest)))]
    exact ih a (fun r hr => h r (List.mem_cons_of_mem _ hr))

theorem foldl_maxRel_init_le (l : List ResearchData) :
    ∀ q : ℚ, q ≤ l.foldl (fun m r => max m r.relevance) q := by
  induction l with
  | nil => intro q; exact le_refl q
  | cons b rest ih =>
    intro q
    exact le_trans (le_max_left q b.relevance) (ih _)

theorem foldl_maxRel_ub (l : List ResearchData) :
    ∀ (q : ℚ) (r : ResearchData), r ∈ l →
      r.relevance ≤ l.foldl (fun m r => max m r.relevance) q := by
  induction l with
  | nil => intro q r hr; cases hr
  | cons b rest ih =>
    intro q r hr
    rcases List.mem_cons.mp hr with h1 | h1
    · rw [h1, List.foldl_cons]
      exact le_trans (le_max_right q b.relevance) (foldl_maxRel_init_le rest _)
    · rw [List.foldl_cons]
      exact ih _ r h1

theorem foldl_maxRel_attained (l : List ResearchData) :
    ∀ q : ℚ, l.foldl (fun m r => max m r.relevance) q = q ∨
      ∃ r ∈ l, l.foldl (fun m r => max m r.relevance) q = r.relevance := by
  induction l with
  | nil => intro q; exact Or.inl rfl
  | cons b rest ih =>
    intro q
    rw [List.foldl_cons]
    rcases ih (max q b.relevance) with h | ⟨r, hr, h⟩
    · rcases max_choice q b.relevance with hm | hm
      · exact Or.inl (by rw [h, hm])
      · exact Or.inr ⟨b, List.mem_cons_self b rest, by rw [h, hm]⟩
    · exact Or.inr ⟨r, List.mem_cons_of_mem _ hr, h⟩

theorem foldl_maxRel_dominated (l : List ResearchData) :
    ∀ q : ℚ, (∀ r ∈ l, r.relevance ≤ q) →
      l.foldl (fun m r => max m r.relevance) q = q := by
  induction l with
  | nil => intro q _; rfl
  | cons b rest ih =>
    intro q h
    rw [List.foldl_cons, max_eq_left (h b (List.mem_cons_self b rest))]
    exact ih q (fun r hr => h r (List.mem_cons_of_mem _ hr))

theorem maxRelIn_ub (t : List ResearchData) (a y : ResearchData) (hy : y ∈ a :: t) :
    y.relevance ≤ maxRelIn a t := by
  rcases List.mem_cons.mp hy with h | h
  · rw [h]; exact foldl_maxRel_init_le t a.relevance
  · exact foldl_maxRel_ub t a.relevance y h

theorem maxRelIn_attained (t : List ResearchData) (a : ResearchData) :
    ∃ y ∈ a :: t, maxRelIn a t = y.relevance := by
  rcases foldl_maxRel_attained t a.relevance with h | ⟨r, hr, h⟩
  · exact ⟨a, List.mem_cons_self a t, h⟩
  · exact ⟨r, List.mem_cons_of_mem _ hr, h⟩

theorem mergeGroup_fields (a : ResearchData) (t : List ResearchData) :
    (mergeGroup a t).source_id = (newestIn a t).source_id
    ∧ (mergeGroup a t).content = (newestIn a t).content
    ∧ (mergeGroup a t).worker = (newestIn a t).worker
    ∧ (mergeGroup a t).collected_at = (newestIn a t).collected_at
    ∧ (mergeGroup a t).relevance = maxRelIn a t :=
  ⟨rfl, rfl, rfl, rfl, rfl⟩

/-- Full characterisation of the merged record for one `source_id`. -/
theorem mergeFor_spec {all : List ResearchData} {id : String} {m : ResearchData}
    (h : mergeFor all id = some m) :
    m.source_id = id
    ∧ (∀ y ∈ all, y.source_id = id → y.relevance ≤ m.relevance)
    ∧ (∃ y ∈ all, y.source_id = id ∧ y.relevance = m.relevance)
    ∧ (∃ x ∈ all, x.source_id = id ∧ x.content = m.content
        ∧ x.collected_at = m.collected_at ∧ x.worker = m.worker
        ∧ ∀ y ∈ all, y.source_id = id → y.collected_at ≤ x.collected_at) := by
  unfold mergeFor at h
  cases hg : groupFor id all with
  | nil => rw [hg] at h; exact absurd h (by simp)
  | cons a t =>
    rw [hg] at h
    cases h
    have hgm : ∀ y : ResearchData, y ∈ a :: t ↔ (y ∈ all ∧ y.source_id = id) := by
      intro y
      rw [← hg]
      exact mem_groupFor
    have hw_mem : (newestIn a t) ∈ a :: t := newestIn_mem t a
    have hw_all := (hgm (newestIn a t)).mp hw_mem
    refine ⟨hw_all.2, ?_, ?_, ?_⟩
    · intro y hy hsid
      exact maxRelIn_ub t a y ((hgm y).mpr ⟨hy, hsid⟩)
    · obtain ⟨y, hy, hrel⟩ := maxRelIn_attained t a
      have hy' := (hgm y).mp hy
      exact ⟨y, hy'.1, hy'.2, hrel.symm⟩
    · refine ⟨newestIn a t, hw_all.1, hw_all.2, rfl, rfl, rfl, ?_⟩
      intro y hy hsid
      exact newestIn_ts_ub t a y ((hgm y).mpr ⟨hy, hsid⟩)

theorem mergeFor_isSome {all : List ResearchData} {id : String}
    (h : ∃ x ∈ all, x.source_id = id) : ∃ m, mergeFor all id = some m := by
  obtain ⟨x, hx, hsid⟩ := h
  have hxg : x ∈ groupFor id all := mem_groupFor.mpr ⟨hx, hsid⟩
  cases hg : groupFor id all with
  | nil => rw [hg] at hxg; cases hxg
  | cons a t =>
    refine ⟨mergeGroup a t, ?_⟩
    unfold mergeFor
    rw [hg]

theorem mergeFor_none {all : List ResearchData} {id : String}
    (h : ∀ x ∈ all, x.source_id ≠ id) : mergeFor all id = none := by
  have hg : groupFor id all = [] := List.filter_eq_nil_iff.mpr (by simpa using h)
  unfold mergeFor
  rw [hg]

theorem nodup_filterMap_keys (all : List ResearchData) :
    ∀ ids : List String, ids.Nodup →
      ((ids.filterMap (mergeFor all)).map (fun r => r.source_id)).Nodup := by
  intro ids
  induction ids with
  | nil => intro _; simp
  | cons id rest ih =>
    intro hnd
    rw [List.nodup_cons] at hnd
    cases hm : mergeFor all id with
    | none =>
      rw [List.filterMap_cons, hm]
      exact ih hnd.2
    | some m =>
      rw [List.filterMap_cons, hm, List.map_cons, List.nodup_cons]
      refine ⟨?_, ih hnd.2⟩
      intro hmem
      rw [List.mem_map] at hmem
      obtain ⟨m', hm', hsid⟩ := hmem
      rw [List.mem_filterMap] at hm'
      obtain ⟨id', hid', hmid'⟩ := hm'
      have h1 : m'.source_id = id' := (mergeFor_spec hmid').1
      have h2 : m.source_id = id := (mergeFor_spec hm).1
      rw [h1, h2] at hsid
      exact hnd.1 (hsid ▸ hid')

theorem reducer_map_sid_nodup (e i : List ResearchData) :
    ((research_data_reducer e i).map (fun r => r.source_id)).Nodup := by
  have h1 := nodup_filterMap_keys (e ++ i)
    (((e ++ i).map (fun r => r.source_id)).dedup)
    (List.nodup_dedup (((e ++ i).map (fun r => r.source_id))))
  have h2 : List.Perm (research_data_reducer e i)
      ((((e ++ i).map (fun r => r.source_id)).dedup).filterMap (mergeFor (e ++ i))) := by
    rw [reducer_eq]
    exact List.perm_insertionSort _ _
  exact ((h2.map _).nodup_iff).mpr h1

/-- Membership in the reducer output is exactly "being the merged record of
your own source id". -/
theorem mem_reducer_iff {e i : List ResearchData} {r : ResearchData} :
    r ∈ research_data_reducer e i ↔ mergeFor (e ++ i) r.source_id = some r := by
  rw [reducer_eq, List.mem_insertionSort, List.mem_filterMap]
  constructor
  · rintro ⟨id, _, hmid⟩
    have hsid := (mergeFor_spec hmid).1
    rw [← hsid] at hmid
    exact hmid
  · intro h
    refine ⟨r.source_id, ?_, h⟩
    unfold mergeFor at h
    cases hg : groupFor r.source_id (e ++ i) with
    | nil => rw [hg] at h; exact absurd h (by simp)
    | cons a t =>
      have ha : a ∈ groupFor r.source_id (e ++ i) := by
        rw [hg]; exact List.mem_cons_self a t
      have ha' := mem_groupFor.mp ha
      rw [List.mem_dedup, List.mem_map]
      exact ⟨a, ha'.1, ha'.2⟩

theorem reducer_sorted (e i : List ResearchData) :
    (research_data_reducer e i).Sorted rdLE := by
  rw [reducer_eq]
  exact List.sorted_insertionSort rdLE _

theorem rdLE_ts_le {a b : ResearchData} (h : rdLE a b) :
    a.collected_at ≤ b.collected_at := by
  unfold rdLE rdKey at h
  rcases (Prod.Lex.le_iff _ _).mp h with h1 | h1
  · exact le_of_lt h1
  · exact le_of_eq h1.1

/-! ## C1: `research_data_reducer` merge semantics -/

/-- C1: for every existing list and incoming batch, the reducer output has
exactly one record per source_id (no duplicate ids, and an id appears in
the output iff some input record carries it); each surviving record carries
the maximum relevance seen across all records of its source_id while its
content and collection timestamp come from a record whose timestamp is
most recent for that id; the output is ordered by collection timestamp;
and merging a record with relevance 3/5 at time 1 with one of relevance
2/5 at the later time 2 yields relevance 3/5 with timestamp 2 and the
content of the later record. -/
theorem C1_research_data_reducer_merge :
    (∀ existing incoming : List ResearchData,
      ((research_data_reducer existing incoming).map (fun r => r.source_id)).Nodup
      ∧ (∀ id : String,
          (∃ r ∈ research_data_reducer existing incoming, r.source_id = id) ↔
          (∃ x ∈ existing ++ incoming, x.source_id = id))
      ∧ (∀ r ∈ research_data_reducer existing incoming,
          (∀ y ∈ existing ++ incoming, y.source_id = r.source_id →
            y.relevance ≤ r.relevance)
          ∧ (∃ y ∈ existing ++ incoming, y.source_id = r.source_id ∧
              y.relevance = r.relevance)
          ∧ (∃ x ∈ existing ++ incoming, x.source_id = r.source_id ∧
              x.content = r.content ∧ x.collected_at = r.collected_at ∧
              x.worker = r.worker ∧
              ∀ y ∈ existing ++ incoming, y.source_id = r.source_id →
                y.collected_at ≤ x.collected_at))
      ∧ (research_data_reducer existing incoming).Pairwise
          (fun a b => a.collected_at ≤ b.collected_at))
    ∧ research_data_reducer
        [(⟨"src_1", "content v1", 3/5, "w1", 1⟩ : ResearchData)]
        [(⟨"src_1", "content v2", 2/5, "w2", 2⟩ : ResearchData)]
      = [(⟨"src_1", "content v2", 3/5, "w2", 2⟩ : ResearchData)] := by
  constructor
  · intro existing incoming
    refine ⟨reducer_map_sid_nodup existing incoming, ?_, ?_, ?_⟩
    · intro id
      constructor
      · rintro ⟨r, hr, hsid⟩
        have hm := mem_reducer_iff.mp hr
        obtain ⟨-, -, -, x, hx, hxsid, -⟩ := mergeFor_spec hm
        exact ⟨x, hx, by rw [hxsid, hsid]⟩
      · rintro ⟨x, hx, hsid⟩
        obtain ⟨m, hm⟩ := mergeFor_isSome ⟨x, hx, hsid⟩
        have hmsid := (mergeFor_spec hm).1
        refine ⟨m, mem_reducer_iff.mpr ?_, hmsid⟩
        rw [hmsid]
        exact hm
    · intro r hr
      have hm := mem_reducer_iff.mp hr
      obtain ⟨-, hub, hatt, x, hx, hxsid, hxc, hxt, hxw, hxmax⟩ := mergeFor_spec hm
      exact ⟨hub, hatt, x, hx, hxsid, hxc, hxt, hxw, hxmax⟩
    · exact List.Pairwise.imp (fun h => rdLE_ts_le h)
        (reducer_sorted existing incoming)
  · have hmax : max (3/5 : ℚ) (2/5 : ℚ) = 3/5 := max_eq_left (by norm_num)
    rw [reducer_eq]
    norm_num [mergeFor, groupFor, mergeGroup, newestIn, maxRelIn, hmax,
      List.dedup_cons_of_mem]

/-- Witness for C1 at the reducer's concrete merge of two worker batches. -/
theorem C1_research_data_reducer_merge_witness :
    ((research_data_reducer
        [(⟨"a", "c1", 1, "w1", 1⟩ : ResearchData)]
        [(⟨"b", "c2", 1, "w2", 2⟩ : ResearchData)]).map
      (fun r => r.source_id)).Nodup :=
  (C1_research_data_reducer_merge.1
    [(⟨"a", "c1", 1, "w1", 1⟩ : ResearchData)]
    [(⟨"b", "c2", 1, "w2", 2⟩ : ResearchData)]).1

/-! ## C2: the reducer is idempotent in its incoming batch -/

theorem filter_sid_eq_singleton :
    ∀ (l : List ResearchData) (m : ResearchData),
      (l.map (fun r => r.source_id)).Nodup → m ∈ l →
      groupFor m.source_id l = [m] := by
  intro l
  induction l with
  | nil => intro m _ hm; cases hm
  | cons b rest ih =>
    intro m hn hm
    rw [List.map_cons, List.nodup_cons] at hn
    rcases List.mem_cons.mp hm with h1 | h1
    · subst h1
      have hrest : groupFor m.source_id rest = [] := by
        rw [groupFor, List.filter_eq_nil_iff]
        intro a ha hda
        rw [decide_eq_true_eq] at hda
        apply hn.1
        rw [← hda]
        exact List.mem_map_of_mem _ ha
      rw [groupFor, List.filter_cons_of_pos (by simp)]
      rw [groupFor] at hrest
      rw [hrest]
    · have hne : ¬ (b.source_id = m.source_id) := by
        intro heq
        apply hn.1
        rw [heq]
        exact List.mem_map_of_mem _ h1
      rw [groupFor, List.filter_cons_of_neg (by simp [hne])]
      have := ih m hn.2 h1
      rw [groupFor] at this
      exact this

theorem mergeGroup_dominated {m : ResearchData} {gA : List ResearchData}
    (hts : ∀ r ∈ gA, r.collected_at ≤ m.collected_at)
    (hrel : ∀ r ∈ gA, r.relevance ≤ m.relevance) :
    mergeGroup m gA = m := by
  unfold mergeGroup maxRelIn
  rw [newestIn_dominated gA m hts, foldl_maxRel_dominated gA m.relevance hrel]

/-- The merged record for any id over `reducer X A ++ A` equals the merged
record over `X ++ A`: re-merging the already merged output with the same
batch changes nothing, id by id. -/
theorem mergeFor_idem (X A : List ResearchData) (id : String) :
    mergeFor (research_data_reducer X A ++ A) id = mergeFor (X ++ A) id := by
  cases hm : mergeFor (X ++ A) id with
  | none =>
    have hnone : ∀ x ∈ X ++ A, x.source_id ≠ id := by
      intro x hx heq
      obtain ⟨m, hm'⟩ := mergeFor_isSome ⟨x, hx, heq⟩
      rw [hm'] at hm
      cases hm
    apply mergeFor_none
    intro x hx heq
    rcases List.mem_append.mp hx with h1 | h1
    · have h2 := mem_reducer_iff.mp h1
      rw [heq, hm] at h2
      cases h2
    · exact hnone x (List.mem_append.mpr (Or.inr h1)) heq
  | some m =>
    have hspec := mergeFor_spec hm
    have hmsid : m.source_id = id := hspec.1
    have hmO : m ∈ research_data_reducer X A := by
      apply mem_reducer_iff.mpr
      rw [hmsid]
      exact hm
    have hsingle : groupFor id (research_data_reducer X A) = [m] := by
      have hs := filter_sid_eq_singleton _ m (reducer_map_sid_nodup X A) hmO
      rw [hmsid] at hs
      exact hs
    obtain ⟨-, hub, -, x, hx, hxsid, hxc, hxt, hxw, hxmax⟩ := hspec
    have htsA : ∀ r ∈ groupFor id A, r.collected_at ≤ m.collected_at := by
      intro r hr
      have hr' := mem_groupFor.mp hr
      rw [← hxt]
      exact hxmax r (List.mem_append.mpr (Or.inr hr'.1)) hr'.2
    have hrelA : ∀ r ∈ groupFor id A, r.relevance ≤ m.relevance := by
      intro r hr
      have hr' := mem_groupFor.mp hr
      exact hub r (List.mem_append.mpr (Or.inr hr'.1)) hr'.2
    have hgroup : groupFor id (research_data_reducer X A ++ A) =
        m :: groupFor id A := by
      rw [groupFor_append, hsingle]
      rfl
    unfold mergeFor
    rw [hgroup]
    show some (mergeGroup m (groupFor id A)) = some m
    rw [mergeGroup_dominated htsA hrelA]

/-- C2: applying the reducer a second time with the same incoming batch
returns the same value as the first application, and the twice-applied
output still has no duplicate source_ids. -/
theorem C2_research_data_reducer_idempotent :
    ∀ X A : List ResearchData,
      research_data_reducer (research_data_reducer X A) A =
        research_data_reducer X A
      ∧ ((research_data_reducer (research_data_reducer X A) A).map
          (fun r => r.source_id)).Nodup := by
  intro X A
  have hmem : ∀ r, r ∈ research_data_reducer (research_data_reducer X A) A ↔
      r ∈ research_data_reducer X A := by
    intro r
    rw [mem_reducer_iff, mem_reducer_iff, mergeFor_idem]
  have hperm : List.Perm (research_data_reducer (research_data_reducer X A) A)
      (research_data_reducer X A) := by
    refine (List.perm_ext_iff_of_nodup ?_ ?_).mpr hmem
    · exact List.Nodup.of_map _ (reducer_map_sid_nodup _ _)
    · exact List.Nodup.of_map _ (reducer_map_sid_nodup _ _)
  have heq := List.eq_of_perm_of_sorted hperm (reducer_sorted _ _) (reducer_sorted _ _)
  refine ⟨heq, ?_⟩
  rw [heq]
  exact reducer_map_sid_nodup _ _

/-- Witness for C2 at concrete batches that overlap on one source id. -/
theorem C2_research_data_reducer_idempotent_witness :
    research_data_reducer
        (research_data_reducer
          [(⟨"a", "c1", 1, "w1", 1⟩ : ResearchData)]
          [(⟨"a", "c2", 2, "w2", 2⟩ : ResearchData)])
        [(⟨"a", "c2", 2, "w2", 2⟩ : ResearchData)]
      = research_data_reducer
          [(⟨"a", "c1", 1, "w1", 1⟩ : ResearchData)]
          [(⟨"a", "c2", 2, "w2", 2⟩ : ResearchData)] :=
  (C2_research_data_reducer_idempotent
    [(⟨"a", "c1", 1, "w1", 1⟩ : ResearchData)]
    [(⟨"a", "c2", 2, "w2", 2⟩ : ResearchData)]).1

end ResearchAgent
